import Mathlib

/-!
# Verification of the CG-CRM-Backend dual-write / retry core

Shallow embedding of the lead-management core of the repository:

* `src/utils/helpers.js` — phone identity normalizer
  (`normalizePhone`, `getLastTenDigits`, `phoneNumbersMatch`, `cleanString`);
* `src/services/firestoreService.js` — document-store lead adapter
  (`findLeadByPhone`, `createLead`, `updateLead`, `addHistory`,
  `createOrUpdateLead`, `getNextCgId`, `extractCountryInfo`);
* `src/handlers/contactHandler.js` — dual-write orchestrator (`buildWriteBoth`);
* `pendingQueue.js` — in-memory retry queue (`enqueue`, `_processQueue`);
* `src/index.js` — cross-process mutex (`withWaIdMutex`).

JavaScript conventions modelled explicitly:

* a possibly-`undefined`/`null` string is `Option String`; JS truthiness on a
  string value is "present and non-empty" (`jsTruthy`);
* asynchronous backend calls (Firestore queries/writes, the counter
  transaction, the spreadsheet write, Datastore get/save/delete) are modelled
  by boolean/`Except` outcome oracles passed in as parameters: the function
  under test decides what to do with a given backend outcome, and the theorems
  quantify over all outcomes;
* `catch` blocks that convert an error into a `null` return value are modelled
  by the corresponding `Option`-returning branch;
* `Date.now()` is a `Nat` (milliseconds) parameter, `new Date().toISOString()`
  a `String` parameter;
* Firestore's `FieldValue.arrayUnion` appends an element only when it is not
  already present in the array (`arrayUnion` below).
-/

namespace CgCrm

/-! ## Phone identity normalizer (`src/utils/helpers.js`) -/

/-- `.replace(/\D/g, '')` — keep only decimal digits. -/
def digitsOnly (s : String) : String :=
  String.mk (s.data.filter Char.isDigit)

/-- `normalizePhone(phone)`: `if (!phone) return '';
return phone.toString().replace(/\D/g, '');`.
The argument is `Option String` (`none` = JS `null`/`undefined`). -/
def normalizePhone : Option String → String
  | none => ""
  | some s => if s.isEmpty then "" else digitsOnly s

/-- JS `s.slice(-n)` on a string: the last `n` characters
(the whole string when it is shorter than `n`). -/
def sliceLast (s : String) (n : Nat) : String :=
  String.mk (s.data.drop (s.data.length - n))

/-- `getLastTenDigits(phoneNumber)`:
`phoneNumber.toString().replace(/\D/g, '').slice(-10)`. -/
def getLastTenDigits (s : String) : String :=
  sliceLast (digitsOnly s) 10

/-- `phoneNumbersMatch(num1, num2)`:
`getLastTenDigits(num1) === getLastTenDigits(num2)`. -/
def phoneNumbersMatch (num1 num2 : String) : Bool :=
  getLastTenDigits num1 == getLastTenDigits num2

/-- `cleanString(str)`: `(str || '').toString().trim()`. -/
def cleanString : Option String → String
  | none => ""
  | some s => s.trim

/-! JS truthiness helpers for `Option String` values. -/

/-- A JS string value is truthy iff it is present and non-empty. -/
def jsTruthy : Option String → Bool
  | none => false
  | some s => !s.isEmpty

/-- JS `a || b` on two possibly-absent strings. -/
def jsOr (a b : Option String) : Option String :=
  if jsTruthy a then a else b

/-- JS `a || dflt` with a (truthy) string literal default. -/
def jsOrD (a : Option String) (dflt : String) : String :=
  if jsTruthy a then a.getD "" else dflt

/-! ## Data model (`src/services/firestoreService.js`) -/

/-- One entry of a lead's `history` array:
`{action, by, at, details}` (`by`/`at` renamed `by_`/`at_`, Lean keywords).
The `details` object is modelled as an association list of string fields. -/
structure HistoryEntry where
  action : String
  by_ : String
  at_ : String
  details : List (String × String)
deriving DecidableEq, Repr

/-- A lead document as built by `createLead` (collection `leads`). -/
structure LeadDoc where
  cgId : String
  phone : String
  phoneNormalized : String
  countryISO : String
  countryCode : String
  localNumber : String
  name : String
  email : String
  stage : String
  status : String
  agent : String
  location : String
  product : String
  source : String
  message : String
  remark : String
  regiNo : String
  createdAt : String
  updatedAt : String
  sheetRow : Option Nat
  history : List HistoryEntry
deriving DecidableEq, Repr

/-- The incoming `leadData` object handed to the adapter by the handlers.
Absent JS properties are `none`. -/
structure LeadData where
  phone : Option String := none
  waId : Option String := none
  name : Option String := none
  senderName : Option String := none
  email : Option String := none
  location : Option String := none
  product : Option String := none
  source : Option String := none
  message : Option String := none
  remark : Option String := none
  regiNo : Option String := none
  team : Option String := none
  status : Option String := none
  channel : Option String := none
  sheetRow : Option Nat := none
deriving DecidableEq, Repr

/-- The `updates` object passed to `updateLead`. At every call site in the
repository it carries only scalar lead fields (never a `history` key), so it
is modelled as that record; `none` = key absent from the object. -/
structure LeadUpdates where
  name : Option String := none
  email : Option String := none
  location : Option String := none
  message : Option String := none
  remark : Option String := none
  status : Option String := none
  stage : Option String := none
  agent : Option String := none
deriving DecidableEq, Repr

/-- The optional `historyEntry` argument of `updateLead`/`createOrUpdateLead`:
`{action, by, details}` with `by` and `details` possibly absent. -/
structure HistoryInput where
  action : String
  by_ : Option String := none
  details : Option (List (String × String)) := none
deriving DecidableEq, Repr

/-- Result objects of the CRUD operations: `{docId, cgId, created}` from
`createLead` and `{docId, cgId, updated}` from `updateLead` (each function
sets only its own flag). -/
structure OpResult where
  docId : Nat
  cgId : String
  created : Option Bool := none
  updated : Option Bool := none
deriving DecidableEq, Repr

/-- Result of `addHistory`: `{docId, cgId, action}`. -/
structure AddHistoryResult where
  docId : Nat
  cgId : String
  action : String
deriving DecidableEq, Repr

/-- The document store's state: the `leads` collection as a list of
(document id, document) pairs in insertion order, a fresh-id source for
`collection.add`, and the `system/counters` document (`none` = the counter
document does not exist yet, `some n` = its `leadCounter` field is `n`)
together with its `lastUpdated` bookkeeping field. -/
structure FsState where
  leads : List (Nat × LeadDoc)
  nextDocId : Nat
  counter : Option Nat
  counterLastUpdated : String
deriving DecidableEq, Repr

/-- Outcome oracles for the Firestore backend calls made during one
operation: whether the `phoneNormalized` query succeeds (`findOk`), whether
the counter transaction commits (`txOk`), whether `collection.add` succeeds
(`addOk`) and whether `docRef.update` succeeds (`updOk`). A `false` outcome
models the corresponding awaited call throwing. -/
structure FsOracle where
  findOk : Bool := true
  txOk : Bool := true
  addOk : Bool := true
  updOk : Bool := true
deriving DecidableEq, Repr

/-- The all-healthy backend oracle. -/
def FsOracle.allOk : FsOracle := {}

/-- Firestore's `FieldValue.arrayUnion(e)` on an array field: append `e`
unless an equal element is already present. -/
def arrayUnion (hist : List HistoryEntry) (e : HistoryEntry) : List HistoryEntry :=
  if e ∈ hist then hist else hist ++ [e]

/-- Look a document up by id (Firestore document ids are unique, which is the
`KeysNodup` well-formedness hypothesis of the theorems below). -/
def lookupLead (st : FsState) (docId : Nat) : Option LeadDoc :=
  (st.leads.find? (fun p => p.1 == docId)).map (fun p => p.2)

/-- Replace the document stored under `docId`. -/
def setLead (st : FsState) (docId : Nat) (doc : LeadDoc) : FsState :=
  { st with leads := st.leads.map (fun p => if p.1 == docId then (p.1, doc) else p) }

/-- Well-formedness: no two documents share an id. -/
def KeysNodup (st : FsState) : Prop :=
  (st.leads.map Prod.fst).Nodup

/-! ## Country-code extraction (`firestoreService.js`, `COUNTRY_CODES`) -/

/-- The `COUNTRY_CODES` table: prefix ↦ (iso, name). -/
def COUNTRY_CODES : List (String × String × String) :=
  [("91", "IN", "India"), ("1", "US", "USA/Canada"), ("971", "AE", "UAE"),
   ("65", "SG", "Singapore"), ("44", "GB", "UK"), ("61", "AU", "Australia"),
   ("81", "JP", "Japan"), ("49", "DE", "Germany"), ("33", "FR", "France"),
   ("86", "CN", "China"), ("7", "RU", "Russia"), ("92", "PK", "Pakistan"),
   ("880", "BD", "Bangladesh"), ("94", "LK", "Sri Lanka"), ("977", "NP", "Nepal"),
   ("966", "SA", "Saudi Arabia"), ("974", "QA", "Qatar"), ("968", "OM", "Oman"),
   ("973", "BH", "Bahrain"), ("965", "KW", "Kuwait")]

structure CountryInfo where
  iso : String
  name : String
  countryCode : String
  localNumber : String
deriving DecidableEq, Repr

/-- `extractCountryInfo(phone)`: try prefixes of length 3, 2, 1 against the
table; on a hit return its entry plus `+prefix` and the local remainder,
otherwise the unknown-country record. -/
def extractCountryInfo (phone : Option String) : CountryInfo :=
  let digits := normalizePhone phone
  let tryLen : Nat → Option CountryInfo := fun len =>
    let pre := String.mk (digits.data.take len)
    (COUNTRY_CODES.find? (fun c => c.1 == pre)).map (fun c =>
      ⟨c.2.1, c.2.2, "+" ++ pre, String.mk (digits.data.drop len)⟩)
  match tryLen 3 with
  | some r => r
  | none => match tryLen 2 with
    | some r => r
    | none => match tryLen 1 with
      | some r => r
      | none => ⟨"XX", "Unknown", "", digits⟩

/-! ## CG id generation (`firestoreService.js`, `getNextCgId`) -/

/-- JS `String(n).padStart(5, '0')`. -/
def padStart5 (s : String) : String :=
  if s.length ≥ 5 then s else String.mk (List.replicate (5 - s.length) '0') ++ s

/-- One digit of `Number.prototype.toString(36).toUpperCase()`. -/
def base36Digit (n : Nat) : Char :=
  if n < 10 then Char.ofNat (48 + n) else Char.ofNat (55 + n)

/-- JS `n.toString(36).toUpperCase()` for a natural `n`. -/
def toBase36 (n : Nat) : String :=
  if n < 36 then String.mk [base36Digit n]
  else toBase36 (n / 36) ++ String.mk [base36Digit (n % 36)]
decreasing_by exact Nat.div_lt_self (by omega) (by omega)

/-- `getNextCgId()`: inside a transaction read the counter document, compute
`nextNum = exists ? (leadCounter || 0) + 1 : 1`, write it back (with a
`lastUpdated` timestamp, merge semantics) and return `CG` + the number
zero-padded to width 5. If the transaction throws, return the fallback
`CG` + `Date.now().toString(36).toUpperCase()` and leave the counter
unchanged. `txOk` is the transaction outcome oracle, `nowIso`/`nowMs` the
clock. -/
def getNextCgId (st : FsState) (txOk : Bool) (nowIso : String) (nowMs : Nat) :
    String × FsState :=
  if txOk then
    let nextNum := (st.counter.getD 0) + 1
    ("CG" ++ padStart5 (toString nextNum),
     { st with counter := some nextNum, counterLastUpdated := nowIso })
  else
    ("CG" ++ toBase36 nowMs, st)

/-! ## Queries and CRUD (`firestoreService.js`) -/

/-- `findLeadByPhone(phone)`: normalize; when fewer than 10 digits return
`null` without querying; otherwise run the `phoneNormalized == phoneNorm`
query (`limit(1)`: first match in collection order). A backend error from the
query (`findOk = false`) is caught and also returns `null`. The second
component records whether the backend query was issued. -/
def findLeadByPhone (st : FsState) (phone : Option String) (findOk : Bool) :
    Option (Nat × LeadDoc) × Bool :=
  let phoneNorm := normalizePhone phone
  if phoneNorm.isEmpty || phoneNorm.length < 10 then (none, false)
  else if findOk then
    (st.leads.find? (fun p => p.2.phoneNormalized == phoneNorm), true)
  else (none, true)

/-- The phone used by `createLead`/`createOrUpdateLead`:
`leadData.phone || leadData.waId || ''`. -/
def phoneOf (d : LeadData) : String :=
  (jsOr d.phone (jsOr d.waId (some ""))).getD ""

/-- The first `history` entry written by `createLead`. -/
def createdHistoryEntry (d : LeadData) (nowIso : String) : HistoryEntry :=
  ⟨"lead_created", "system", nowIso,
   [("source", jsOrD d.source ""), ("channel", jsOrD d.channel "webhook")]⟩

/-- The document `createLead` inserts. -/
def newLeadDoc (d : LeadData) (cgId : String) (nowIso : String) : LeadDoc :=
  let phone := phoneOf d
  let ci := extractCountryInfo (some phone)
  { cgId := cgId
    phone := phone
    phoneNormalized := normalizePhone (some phone)
    countryISO := ci.iso
    countryCode := ci.countryCode
    localNumber := ci.localNumber
    name := cleanString (jsOr d.name d.senderName)
    email := cleanString d.email
    stage := jsOrD d.team "Not Assigned"
    status := jsOrD d.status "Lead"
    agent := jsOrD d.team "Not Assigned"
    location := cleanString d.location
    product := jsOrD d.product "CGI"
    source := cleanString d.source
    message := cleanString d.message
    remark := cleanString d.remark
    regiNo := cleanString d.regiNo
    createdAt := nowIso
    updatedAt := nowIso
    sheetRow := d.sheetRow
    history := [createdHistoryEntry d nowIso] }

/-- `createLead(leadData)`: reject a phone that does not normalize to ≥ 10
digits (`null`, no state change); if `findLeadByPhone` finds an existing
lead, return its identity with `created: false`; otherwise draw a `cgId`
from `getNextCgId` and `add` the new document (`created: true`). A throwing
`add` (`addOk = false`) is caught and returns `null` — the counter increment
from `getNextCgId` has already committed by then. -/
def createLead (st : FsState) (d : LeadData) (orc : FsOracle)
    (nowIso : String) (nowMs : Nat) : Option OpResult × FsState :=
  let phone := phoneOf d
  let phoneNorm := normalizePhone (some phone)
  if phoneNorm.isEmpty || phoneNorm.length < 10 then (none, st)
  else
    match (findLeadByPhone st (some phone) orc.findOk).1 with
    | some (docId, doc) => (some ⟨docId, doc.cgId, some false, none⟩, st)
    | none =>
      let r := getNextCgId st orc.txOk nowIso nowMs
      if orc.addOk then
        (some ⟨r.2.nextDocId, r.1, some true, none⟩,
         { r.2 with
             leads := r.2.leads ++ [(r.2.nextDocId, newLeadDoc d r.1 nowIso)],
             nextDocId := r.2.nextDocId + 1 })
      else (none, r.2)

/-- The history entry `updateLead` builds from a `historyEntry` argument:
`{action, by: by || 'system', at: nowISO(), details: details || {}}`. -/
def mkHistEntry (h : HistoryInput) (nowIso : String) : HistoryEntry :=
  ⟨h.action, jsOrD h.by_ "system", nowIso, h.details.getD []⟩

/-- Apply the `updates` payload (spread over the document) plus the
`updatedAt` stamp and the optional `arrayUnion` history append. -/
def applyUpdates (doc : LeadDoc) (u : LeadUpdates) (h : Option HistoryInput)
    (nowIso : String) : LeadDoc :=
  let d1 := { doc with
    name := u.name.getD doc.name
    email := u.email.getD doc.email
    location := u.location.getD doc.location
    message := u.message.getD doc.message
    remark := u.remark.getD doc.remark
    status := u.status.getD doc.status
    stage := u.stage.getD doc.stage
    agent := u.agent.getD doc.agent
    updatedAt := nowIso }
  match h with
  | none => d1
  | some he => { d1 with history := arrayUnion d1.history (mkHistEntry he nowIso) }

/-- `updateLead(phone, updates, historyEntry)`: look the lead up by phone
(`null` when not found — no auto-create, no state change); otherwise
`docRef.update({...updates, updatedAt, history: arrayUnion(...)?})`. A
throwing `update` (`updOk = false`) is caught and returns `null` with no
state change. -/
def updateLead (st : FsState) (phone : Option String) (u : LeadUpdates)
    (h : Option HistoryInput) (orc : FsOracle) (nowIso : String) :
    Option OpResult × FsState :=
  match (findLeadByPhone st phone orc.findOk).1 with
  | none => (none, st)
  | some (docId, doc) =>
    if orc.updOk then
      (some ⟨docId, doc.cgId, none, some true⟩,
       setLead st docId (applyUpdates doc u h nowIso))
    else (none, st)

/-- `addHistory(phone, action, by, details)`: pure audit-trail append — look
the lead up by phone, then `update` only `updatedAt` and the `arrayUnion`
history append. -/
def addHistory (st : FsState) (phone : Option String) (action : String)
    (by_ : Option String) (details : List (String × String)) (orc : FsOracle)
    (nowIso : String) : Option AddHistoryResult × FsState :=
  match (findLeadByPhone st phone orc.findOk).1 with
  | none => (none, st)
  | some (docId, doc) =>
    if orc.updOk then
      (some ⟨docId, doc.cgId, action⟩,
       setLead st docId
         { doc with
             updatedAt := nowIso
             history := arrayUnion doc.history ⟨action, jsOrD by_ "system", nowIso, details⟩ })
    else (none, st)

/-- The default history entry `createOrUpdateLead` supplies when the caller
passes none: `{action: 'contact_updated', by: 'system', details: {source}}`. -/
def contactUpdatedEntry (d : LeadData) : HistoryInput :=
  ⟨"contact_updated", some "system", some [("source", jsOrD d.source "")]⟩

/-- The merge `updates` object `createOrUpdateLead` builds against an
existing document: copy each of `name`/`location`/`email` when truthy, and
concatenate a truthy incoming `message`/`remark` onto a non-empty stored one
with the `" | "` separator. -/
def mergeUpdates (doc : LeadDoc) (d : LeadData) : LeadUpdates :=
  { name := if jsTruthy d.name then d.name else none
    location := if jsTruthy d.location then d.location else none
    email := if jsTruthy d.email then d.email else none
    message :=
      if jsTruthy d.message then
        some (if doc.message.isEmpty then d.message.getD ""
              else doc.message ++ " | " ++ d.message.getD "")
      else none
    remark :=
      if jsTruthy d.remark then
        some (if doc.remark.isEmpty then d.remark.getD ""
              else doc.remark ++ " | " ++ d.remark.getD "")
      else none }

/-- `createOrUpdateLead(leadData, historyEntry)`: the upsert. Find by
`leadData.phone || leadData.waId || ''`; when found, build the merge
`updates` and call `updateLead` with `historyEntry ||` the default
`contact_updated` entry; otherwise call `createLead`. (Its own outer
`try/catch` is dead: nothing inside it throws, every callee catches its
backend errors and returns `null`.) -/
def createOrUpdateLead (st : FsState) (d : LeadData) (h : Option HistoryInput)
    (orc : FsOracle) (nowIso : String) (nowMs : Nat) : Option OpResult × FsState :=
  let phone := phoneOf d
  match (findLeadByPhone st (some phone) orc.findOk).1 with
  | some (_, doc) =>
    updateLead st (some phone) (mergeUpdates doc d)
      (some (h.getD (contactUpdatedEntry d))) orc nowIso
  | none => createLead st d orc nowIso nowMs

/-! ## Dual-write orchestrator (`src/handlers/contactHandler.js`) -/

/-- Modelled from the spec: `sheetsService.upsertContact` is not among the
repository's source files (only its callers are). Per §4.3 of the spec it
upserts the lead into the spreadsheet and lets any network/backend error
propagate (throws); it is therefore modelled as its own outcome oracle: the
call completes or throws exactly as the oracle says. -/
def upsertContact (sheetOutcome : Except String Unit) : Except String Unit :=
  sheetOutcome

/-- The zero-argument write function returned by
`buildWriteBoth(leadData, historyEntry)`, invoked once. It

* `try`s `FirestoreService.createOrUpdateLead(leadData, historyEntry)` —
  which is a total function (it catches its own backend errors and returns
  `null`), so this `catch` never fires and no `firestore: ...` error is ever
  collected;
* `try`s `SheetService.upsertContact(leadData)`, collecting
  `sheet: <message>` when it throws;
* throws the collected errors joined by `'; '` when any were collected.

The returned state is the document store after the firestore leg. -/
def writeBoth (st : FsState) (d : LeadData) (h : Option HistoryInput)
    (orc : FsOracle) (nowIso : String) (nowMs : Nat)
    (sheetOutcome : Except String Unit) : Except String Unit × FsState :=
  let (_res, st') := createOrUpdateLead st d h orc nowIso nowMs
  let errors : List String := []
  let errors := match upsertContact sheetOutcome with
    | .ok _ => errors
    | .error e => errors ++ ["sheet: " ++ e]
  (if errors.isEmpty then .ok () else .error (String.intercalate "; " errors), st')

/-! ## Pending-write retry queue (`pendingQueue.js`) -/

def MAX_RETRIES : Nat := 5

def BACKOFF_MS : List Nat := [0, 15000, 60000, 300000, 900000]

def POLL_INTERVAL_MS : Nat := 10000

/-- Call-site metadata `{phone, handler}`. -/
structure Metadata where
  phone : String
  handler : String
deriving DecidableEq, Repr

/-- One queued item. `writeFn` is not stored here: its outcome on each
invocation is supplied by the scheduler's outcome oracle, keyed by
`operationId`. -/
structure QItem where
  operationId : String
  metadata : Metadata
  attempts : Nat
  nextRetryAt : Nat
  enqueuedAt : Nat
deriving DecidableEq, Repr

/-- `enqueue(operationId, writeFn, metadata)`: skip when an item with this
`operationId` is already queued, else push
`{operationId, writeFn, metadata, attempts: 0, nextRetryAt: Date.now(),
enqueuedAt: Date.now()}`. -/
def enqueue (q : List QItem) (operationId : String) (metadata : Metadata)
    (nowMs : Nat) : List QItem :=
  if q.any (fun it => it.operationId == operationId) then q
  else q ++ [⟨operationId, metadata, 0, nowMs, nowMs⟩]

/-- `getStats()`: queue depth and the per-item attempt counts. -/
def getStats (q : List QItem) : Nat × List (String × Nat) :=
  (q.length, q.map (fun it => (it.operationId, it.attempts)))

/-- `BACKOFF_MS[attempts] || BACKOFF_MS[BACKOFF_MS.length - 1]`: JS `||`
falls through to the last entry (900000) both when the index is out of range
(`undefined`) and when the entry is `0` (falsy). -/
def backoffFor (attempts : Nat) : Nat :=
  match BACKOFF_MS.get? attempts with
  | some v => if v == 0 then 900000 else v
  | none => 900000

/-- An attempt the scheduler made: which item, its attempt number after the
`attempts++`, the `nextRetryAt` that let it fire, and the tick time. -/
structure AttemptEv where
  operationId : String
  attemptNo : Nat
  scheduledAt : Nat
  firedAt : Nat
deriving DecidableEq, Repr

/-- The structured terminal log record emitted on dead-letter. -/
structure DeadLetter where
  type : String
  severity : String
  operationId : String
  attempts : Nat
  lastError : String
  metadata : Metadata
  enqueuedAt : Nat
  diedAt : Nat
deriving DecidableEq, Repr

/-- One item's handling inside a `_processQueue` tick at time `now`:
skip while `nextRetryAt > now`; otherwise `attempts++` and invoke the write
function (outcome `wf operationId`). Success removes the item; failure
dead-letters it when `attempts >= MAX_RETRIES` and otherwise reschedules it
to `now + backoff`. -/
def processItem (now : Nat) (wf : String → Except String Unit) (item : QItem) :
    Option QItem × Option AttemptEv × Option DeadLetter :=
  if item.nextRetryAt > now then (some item, none, none)
  else
    let a := item.attempts + 1
    let ev : AttemptEv := ⟨item.operationId, a, item.nextRetryAt, now⟩
    match wf item.operationId with
    | .ok _ => (none, some ev, none)
    | .error msg =>
      if a ≥ MAX_RETRIES then
        (none, some ev,
         some ⟨"DEAD_LETTER", "CRITICAL", item.operationId, a, msg,
               item.metadata, item.enqueuedAt, now⟩)
      else
        (some { item with attempts := a, nextRetryAt := now + backoffFor a },
         some ev, none)

/-- `_processQueue` at time `now`: every due item is handled independently
(the JS loop iterates the array from the back and `splice`s resolved items
out; surviving items keep their relative order, and later items' events are
logged before earlier ones'). -/
def processQueue (now : Nat) (wf : String → Except String Unit) :
    List QItem → List QItem × List AttemptEv × List DeadLetter
  | [] => ([], [], [])
  | item :: rest =>
    let (q, evs, dls) := processQueue now wf rest
    match processItem now wf item with
    | (keep, ev, dl) => (keep.toList ++ q, evs ++ ev.toList, dls ++ dl.toList)

/-- The scheduler's observable state: the queue plus the cumulative logs of
attempts and dead-letter records. -/
structure SchedState where
  queue : List QItem
  evs : List AttemptEv
  dls : List DeadLetter
deriving DecidableEq, Repr

/-- One poll tick. -/
def tick (wf : String → Except String Unit) (st : SchedState) (now : Nat) :
    SchedState :=
  match processQueue now wf st.queue with
  | (q, e, d) => ⟨q, st.evs ++ e, st.dls ++ d⟩

/-- Run the poll loop over the given tick times. -/
def runSched (wf : String → Except String Unit) (init : SchedState)
    (ts : List Nat) : SchedState :=
  ts.foldl (tick wf) init

/-- A write function that fails on every invocation with message `msg`. -/
def alwaysFail (msg : String) : String → Except String Unit :=
  fun _ => .error msg

/-! ## Cross-process mutex (`src/index.js`, `withWaIdMutex`) -/

/-- Observable events of one `withWaIdMutex` call, in execution order. -/
inductive MutexEv where
  | polled
  | timeoutWarn
  | saveAttempt
  | invoked
  | deleteAttempt
deriving DecidableEq, Repr

/-- The `while (retries < maxRetries)` acquisition loop: each round does a
`datastore.get` whose outcome is `polls retries` — a caught error
(`Except.error`) breaks out, an absent lock entity (`ok false`) breaks out,
an existing lock entity (`ok true`) sleeps 50 ms and increments `retries`.
Returns the final `retries` value; `fuel` starts at `maxRetries - retries`. -/
def acquireLoop (polls : Nat → Except String Bool) :
    Nat → Nat → Nat
  | 0, retries => retries
  | fuel + 1, retries =>
    match polls retries with
    | .error _ => retries
    | .ok false => retries
    | .ok true => acquireLoop polls fuel (retries + 1)

/-- `withWaIdMutex(waId, fn)`. A falsy `waId` short-circuits to `fn()`.
Otherwise: poll up to 60 times (warn on timeout and proceed anyway), `save`
the lock entity (its error is caught and only logged, so its outcome is not
modelled), `try { return await fn() } finally { try delete catch log }` —
the delete attempt happens on both exit paths and `fn`'s outcome (value or
exception) passes through. `polls` is the Datastore `get` outcome oracle and
`fnResult` the guarded function's outcome. -/
def withWaIdMutex {α : Type} (waId : String) (polls : Nat → Except String Bool)
    (fnResult : Except String α) : List MutexEv × Except String α :=
  if waId.isEmpty then ([MutexEv.invoked], fnResult)
  else
    let retries := acquireLoop polls 60 0
    let gets := if retries ≥ 60 then retries else retries + 1
    (List.replicate gets MutexEv.polled
      ++ (if retries ≥ 60 then [MutexEv.timeoutWarn] else [])
      ++ [MutexEv.saveAttempt, MutexEv.invoked, MutexEv.deleteAttempt],
     fnResult)

/-! ## Helper lemmas -/

/-- For a string argument the falsy-guard of `normalizePhone` is redundant:
the result is always the digits-only filter. -/
theorem normalizePhone_some (s : String) : normalizePhone (some s) = digitsOnly s := by
  by_cases h : s.isEmpty
  · have hs : s = "" := (String.isEmpty_iff s).mp h
    subst hs
    rfl
  · simp [normalizePhone, h]

/-- A string of length at least 10 is not empty. -/
theorem not_isEmpty_of_ten_le {s : String} (h : 10 ≤ s.length) :
    s.isEmpty = false := by
  cases he : s.isEmpty
  · rfl
  · have hs : s = "" := (String.isEmpty_iff s).mp he
    subst hs
    simp at h

/-! ## C9 — phone identity matching is tail-invariant (tail length 10) -/

/-- C9. The canonical keys of `+91 98765 43210`, `919876543210` and
`9876543210` agree under the tail-10 comparison (all three have last 10
digits `9876543210`), and in general `phoneNumbersMatch` holds iff the last
10 digits of the two numbers' digits-only normalizations are equal. -/
theorem c9_phone_matching_tail_invariant :
    (getLastTenDigits "+91 98765 43210" = "9876543210" ∧
     getLastTenDigits "919876543210" = "9876543210" ∧
     getLastTenDigits "9876543210" = "9876543210") ∧
    (∀ num1 num2 : String,
      phoneNumbersMatch num1 num2 = true ↔
        sliceLast (normalizePhone (some num1)) 10 =
          sliceLast (normalizePhone (some num2)) 10) := by
  refine ⟨⟨by decide, by decide, by decide⟩, ?_⟩
  intro num1 num2
  simp [phoneNumbersMatch, getLastTenDigits, normalizePhone_some]

/-! ## C10 — short phones: lookup returns null without querying; dependent
operations are silent no-ops -/

/-- C10. When the digits-only normalization of the input phone has fewer
than 10 digits (null and empty inputs included), `findLeadByPhone` returns
null without issuing the backend query, and consequently `updateLead` and
`addHistory` are silent no-ops returning null and leaving the store
unchanged. -/
theorem c10_short_phone_noop (st : FsState) (phone : Option String)
    (u : LeadUpdates) (h : Option HistoryInput) (orc : FsOracle)
    (action : String) (by_ : Option String) (details : List (String × String))
    (nowIso : String)
    (hshort : (normalizePhone phone).length < 10) :
    (∀ findOk, findLeadByPhone st phone findOk = (none, false)) ∧
    updateLead st phone u h orc nowIso = (none, st) ∧
    addHistory st phone action by_ details orc nowIso = (none, st) := by
  have hf : ∀ findOk, findLeadByPhone st phone findOk = (none, false) := by
    intro findOk
    simp [findLeadByPhone, hshort]
  exact ⟨hf, by simp [updateLead, hf], by simp [addHistory, hf]⟩

/-- Witness for C10 at a concrete short phone (`"98765"`) and a non-empty
store. -/
theorem c10_short_phone_noop_witness :
    (∀ findOk,
      findLeadByPhone ⟨[(0, newLeadDoc { phone := some "+91 98765 43210" } "CG00001" "t")], 1, some 1, "t"⟩
        (some "98765") findOk = (none, false)) ∧
    updateLead ⟨[(0, newLeadDoc { phone := some "+91 98765 43210" } "CG00001" "t")], 1, some 1, "t"⟩
      (some "98765") {} none {} "t2" =
      (none, ⟨[(0, newLeadDoc { phone := some "+91 98765 43210" } "CG00001" "t")], 1, some 1, "t"⟩) ∧
    addHistory ⟨[(0, newLeadDoc { phone := some "+91 98765 43210" } "CG00001" "t")], 1, some 1, "t"⟩
      (some "98765") "call_made" none [] {} "t2" =
      (none, ⟨[(0, newLeadDoc { phone := some "+91 98765 43210" } "CG00001" "t")], 1, some 1, "t"⟩) :=
  c10_short_phone_noop _ _ _ _ _ _ _ _ _ (by decide)

/-! ## C7 — business-id generation -/

/-- C7. `getNextCgId` with a committing transaction increments the counter
by exactly one and returns it as `CG` plus the number zero-padded to width
5; an absent counter document yields `CG00001`; two successive successful
generations return strictly increasing sequence numbers; and a failed
transaction returns the base-36 timestamp fallback and leaves the counter
untouched, so the call still produces an identifier. -/
theorem c7_cgid_generation (st : FsState) (nowIso : String) (nowMs : Nat) :
    (∀ c, st.counter = some c →
      getNextCgId st true nowIso nowMs =
        ("CG" ++ padStart5 (toString (c + 1)),
         { st with counter := some (c + 1), counterLastUpdated := nowIso })) ∧
    (st.counter = none →
      getNextCgId st true nowIso nowMs =
        ("CG00001", { st with counter := some 1, counterLastUpdated := nowIso })) ∧
    (getNextCgId st false nowIso nowMs = ("CG" ++ toBase36 nowMs, st)) ∧
    (∀ c nowIso2 nowMs2, st.counter = some c →
      getNextCgId (getNextCgId st true nowIso nowMs).2 true nowIso2 nowMs2 =
        ("CG" ++ padStart5 (toString (c + 2)),
         { st with counter := some (c + 2), counterLastUpdated := nowIso2 }) ∧
      c + 1 < c + 2) := by
  refine ⟨?_, ?_, ?_, ?_⟩
  · intro c hc
    simp [getNextCgId, hc]
  · intro hc
    simp [getNextCgId, hc]
    decide
  · simp [getNextCgId]
  · intro c nowIso2 nowMs2 hc
    constructor
    · simp [getNextCgId, hc]
    · omega

/-! ## C3 — enqueue deduplication and immediate first retry -/

/-- C3. Enqueuing an operation id that is not yet queued appends exactly one
item with `attempts = 0` and `nextRetryAt = enqueuedAt = now`; a second
enqueue with the same id (any metadata, any time) is a no-op leaving the
queue unchanged, so exactly one item with that id is queued; and the fresh
item fires on any poll tick at or after its enqueue time — no backoff delay
gates the first retry. -/
theorem c3_enqueue_dedup (q : List QItem) (opId : String)
    (meta meta2 : Metadata) (t1 t2 : Nat)
    (hnew : ∀ it ∈ q, it.operationId ≠ opId) :
    enqueue q opId meta t1 = q ++ [⟨opId, meta, 0, t1, t1⟩] ∧
    enqueue (enqueue q opId meta t1) opId meta2 t2 = enqueue q opId meta t1 ∧
    ((enqueue q opId meta t1).filter
        (fun it => it.operationId == opId)).length = 1 ∧
    (∀ now wf, t1 ≤ now →
      (processItem now wf (⟨opId, meta, 0, t1, t1⟩ : QItem)).2.1 =
        some ⟨opId, 1, t1, now⟩) := by
  have hany : q.any (fun it => it.operationId == opId) = false := by
    simp only [List.any_eq_false]
    intro it hit
    simpa using hnew it hit
  have h1 : enqueue q opId meta t1 = q ++ [⟨opId, meta, 0, t1, t1⟩] := by
    simp [enqueue, hany]
  refine ⟨h1, ?_, ?_, ?_⟩
  · rw [h1]
    simp [enqueue]
  · rw [h1]
    rw [List.filter_append]
    have hq : q.filter (fun it => it.operationId == opId) = [] := by
      simp only [List.filter_eq_nil_iff]
      intro it hit
      simpa using hnew it hit
    simp [hq]
  · intro now wf hle
    have hng : ¬ (t1 > now) := by omega
    cases hwf : wf opId with
    | ok v => simp [processItem, hng, hwf]
    | error e => simp [processItem, hng, hwf, MAX_RETRIES]

/-- Witness for C3: two enqueues of `op-1` into the empty queue. -/
theorem c3_enqueue_dedup_witness :
    enqueue [] "op-1" ⟨"9876543210", "handleNewContact"⟩ 1000 =
      [⟨"op-1", ⟨"9876543210", "handleNewContact"⟩, 0, 1000, 1000⟩] ∧
    enqueue (enqueue [] "op-1" ⟨"9876543210", "handleNewContact"⟩ 1000)
        "op-1" ⟨"9876543210", "handleInterestedUser"⟩ 2000 =
      enqueue [] "op-1" ⟨"9876543210", "handleNewContact"⟩ 1000 ∧
    ((enqueue [] "op-1" ⟨"9876543210", "handleNewContact"⟩ 1000).filter
        (fun it => it.operationId == "op-1")).length = 1 ∧
    (∀ now wf, 1000 ≤ now →
      (processItem now wf
          (⟨"op-1", ⟨"9876543210", "handleNewContact"⟩, 0, 1000, 1000⟩ : QItem)).2.1 =
        some ⟨"op-1", 1, 1000, now⟩) :=
  c3_enqueue_dedup [] "op-1" ⟨"9876543210", "handleNewContact"⟩
    ⟨"9876543210", "handleInterestedUser"⟩ 1000 2000 (by simp)

/-! ## C8 — cross-process mutex: exactly one invocation, release on every
exit path, degraded execution after acquisition timeout -/

/-- Helper: when every poll sees the lock held, the acquisition loop burns
its whole budget. -/
theorem acquireLoop_locked (polls : Nat → Except String Bool) :
    ∀ fuel r, (∀ i, i < r + fuel → polls i = Except.ok true) →
      acquireLoop polls fuel r = r + fuel := by
  intro fuel
  induction fuel with
  | zero =>
    intro r _
    simp [acquireLoop]
  | succ f ih =>
    intro r h
    have hr : polls r = Except.ok true := h r (by omega)
    have hrec := ih (r + 1) (fun i hi => h i (by omega))
    simp [acquireLoop, hr, hrec]
    omega

/-- C8. For a non-empty identity, `withWaIdMutex` invokes `fn` exactly once,
attempts the lease deletion right after `fn` settles on every exit path (the
event trace ends `invoked, deleteAttempt`, with no earlier invocation or
deletion), and passes `fn`'s outcome through unchanged — the value when it
returns, the exception when it throws. When all 60 acquisition polls see the
lease held, the call logs the timeout warning and still executes `fn`
(degraded, lockless) rather than failing. -/
theorem c8_mutex {α : Type} (waId : String) (polls : Nat → Except String Bool)
    (fnResult : Except String α) (hne : waId ≠ "") :
    (∃ pre, (withWaIdMutex waId polls fnResult).1 =
        pre ++ [MutexEv.invoked, MutexEv.deleteAttempt] ∧
      MutexEv.invoked ∉ pre ∧ MutexEv.deleteAttempt ∉ pre) ∧
    (withWaIdMutex waId polls fnResult).2 = fnResult ∧
    ((∀ i, i < 60 → polls i = Except.ok true) →
      MutexEv.timeoutWarn ∈ (withWaIdMutex waId polls fnResult).1 ∧
      MutexEv.invoked ∈ (withWaIdMutex waId polls fnResult).1) := by
  have hie : waId.isEmpty = false := by
    cases he : waId.isEmpty
    · rfl
    · exact absurd ((String.isEmpty_iff waId).mp he) hne
  refine ⟨?_, ?_, ?_⟩
  · refine ⟨List.replicate (if acquireLoop polls 60 0 ≥ 60 then acquireLoop polls 60 0
        else acquireLoop polls 60 0 + 1) MutexEv.polled
      ++ (if acquireLoop polls 60 0 ≥ 60 then [MutexEv.timeoutWarn] else [])
      ++ [MutexEv.saveAttempt], ?_, ?_, ?_⟩
    · simp only [withWaIdMutex, hie, Bool.false_eq_true, if_false]
      simp [List.append_assoc]
    · by_cases hr : acquireLoop polls 60 0 ≥ 60 <;>
        simp [hr, List.mem_replicate]
    · by_cases hr : acquireLoop polls 60 0 ≥ 60 <;>
        simp [hr, List.mem_replicate]
  · simp [withWaIdMutex, hie]
  · intro hall
    have h60 : acquireLoop polls 60 0 = 60 := by
      simpa using acquireLoop_locked polls 60 0 (by simpa using hall)
    constructor <;> simp [withWaIdMutex, hie, h60]

/-- Witness for C8: a concrete identity whose lock is always observed held;
the guarded function throws, the exception propagates, and the deletion is
still attempted after the invocation. -/
theorem c8_mutex_witness :
    (∃ pre, (withWaIdMutex "919876543210" (fun _ => Except.ok true)
        (Except.error "fn blew up" : Except String Nat)).1 =
        pre ++ [MutexEv.invoked, MutexEv.deleteAttempt] ∧
      MutexEv.invoked ∉ pre ∧ MutexEv.deleteAttempt ∉ pre) ∧
    (withWaIdMutex "919876543210" (fun _ => Except.ok true)
        (Except.error "fn blew up" : Except String Nat)).2 =
      Except.error "fn blew up" ∧
    ((∀ i : Nat, i < 60 → (Except.ok true : Except String Bool) = Except.ok true) →
      MutexEv.timeoutWarn ∈ (withWaIdMutex "919876543210"
          (fun _ => Except.ok true)
          (Except.error "fn blew up" : Except String Nat)).1 ∧
      MutexEv.invoked ∈ (withWaIdMutex "919876543210"
          (fun _ => Except.ok true)
          (Except.error "fn blew up" : Except String Nat)).1) :=
  c8_mutex "919876543210" (fun _ => Except.ok true)
    (Except.error "fn blew up") (by simp)

/-! ## C1 — the dual write collects errors from the tabular leg only -/

/-- A store holding one lead (phone `+91 98765 43210`, message `"hello"`)
used by the C1 counterexample. -/
def c1State : FsState :=
  ⟨[(0, { newLeadDoc { phone := some "+91 98765 43210" } "CG00001" "t0" with
            message := "hello" })], 1, some 1, "t0"⟩

/-- The incoming event of the C1 counterexample: same phone, new message. -/
def c1Data : LeadData :=
  { phone := some "919876543210", message := some "new message" }

/-- Counterexample to C1 as stated. With the document backend's `update`
throwing (`updOk := false`) and the tabular upsert succeeding, the combined
write returns success and changes nothing in the document store — yet the
same write against a healthy backend does change it, so the document-store
write genuinely failed here. A partial failure of the document-store leg is
silently swallowed: `createOrUpdateLead` catches its own backend errors and
returns `null`, so `buildWriteBoth`'s `firestore:` error branch never
fires. -/
theorem c1_counterexample :
    (writeBoth c1State c1Data none { updOk := false } "t1" 0 (Except.ok ())).1 =
      Except.ok () ∧
    (writeBoth c1State c1Data none { updOk := false } "t1" 0 (Except.ok ())).2 =
      c1State ∧
    (writeBoth c1State c1Data none FsOracle.allOk "t1" 0 (Except.ok ())).2 ≠
      c1State := by
  refine ⟨by rfl, by rfl, ?_⟩
  decide

/-- C1 as amended. The two upserts are attempted independently — the
document-store leg's state effect is exactly `createOrUpdateLead`'s,
whatever the tabular outcome — and the combined write throws iff the
tabular-store upsert threw, then with the collected message
`sheet: <error>`; the document-store leg never contributes an error
(its failures surface as a `null` result, not an exception). -/
theorem c1_write_both_amended (st : FsState) (d : LeadData)
    (h : Option HistoryInput) (orc : FsOracle) (nowIso : String) (nowMs : Nat)
    (sheetOutcome : Except String Unit) :
    (writeBoth st d h orc nowIso nowMs sheetOutcome).2 =
      (createOrUpdateLead st d h orc nowIso nowMs).2 ∧
    ((writeBoth st d h orc nowIso nowMs sheetOutcome).1 = Except.ok () ↔
      sheetOutcome = Except.ok ()) ∧
    (∀ e, sheetOutcome = Except.error e →
      (writeBoth st d h orc nowIso nowMs sheetOutcome).1 =
        Except.error ("sheet: " ++ e)) := by
  refine ⟨by simp [writeBoth], ?_, ?_⟩
  · cases sheetOutcome with
    | ok v => simp [writeBoth, upsertContact]
    | error e => simp [writeBoth, upsertContact]
  · intro e he
    subst he
    simp [writeBoth, upsertContact, String.intercalate, String.intercalate.go]

/-- Witness for C1's amended theorem: a throwing tabular upsert surfaces as
the combined `sheet:` error, and a successful one as success, over the same
concrete store. -/
theorem c1_write_both_amended_witness :
    (writeBoth c1State c1Data none FsOracle.allOk "t1" 0
        (Except.error "quota exceeded")).1 =
      Except.error ("sheet: " ++ "quota exceeded") ∧
    ((writeBoth c1State c1Data none FsOracle.allOk "t1" 0 (Except.ok ())).1 =
        Except.ok () ↔ (Except.ok () : Except String Unit) = Except.ok ()) :=
  ⟨(c1_write_both_amended c1State c1Data none FsOracle.allOk "t1" 0
      (Except.error "quota exceeded")).2.2 "quota exceeded" rfl,
   (c1_write_both_amended c1State c1Data none FsOracle.allOk "t1" 0
      (Except.ok ())).2.1⟩

/-! ## C4 — idempotent, validated create -/

/-- Helper: `getNextCgId` touches only the counter document. -/
theorem getNextCgId_leads (st : FsState) (txOk : Bool) (nowIso : String)
    (nowMs : Nat) :
    (getNextCgId st txOk nowIso nowMs).2.leads = st.leads ∧
    (getNextCgId st txOk nowIso nowMs).2.nextDocId = st.nextDocId := by
  cases txOk <;> simp [getNextCgId]

/-- C4. `createLead`: a phone normalizing to fewer than 10 digits makes the
whole call a no-op returning null; an existing lead with that phone makes it
return the existing identity with `created = false` and insert nothing; only
otherwise (and with a healthy `add`) does it draw a fresh id from
`getNextCgId` and append exactly one new document, returning
`created = true`. -/
theorem c4_create_lead (st : FsState) (d : LeadData) (orc : FsOracle)
    (nowIso : String) (nowMs : Nat) :
    ((normalizePhone (some (phoneOf d))).length < 10 →
      createLead st d orc nowIso nowMs = (none, st)) ∧
    (∀ docId doc, 10 ≤ (normalizePhone (some (phoneOf d))).length →
      (findLeadByPhone st (some (phoneOf d)) orc.findOk).1 = some (docId, doc) →
      createLead st d orc nowIso nowMs =
        (some ⟨docId, doc.cgId, some false, none⟩, st)) ∧
    (10 ≤ (normalizePhone (some (phoneOf d))).length →
      (findLeadByPhone st (some (phoneOf d)) orc.findOk).1 = none →
      orc.addOk = true →
      createLead st d orc nowIso nowMs =
        (some ⟨st.nextDocId, (getNextCgId st orc.txOk nowIso nowMs).1,
               some true, none⟩,
         { (getNextCgId st orc.txOk nowIso nowMs).2 with
             leads := st.leads ++ [(st.nextDocId,
               newLeadDoc d ((getNextCgId st orc.txOk nowIso nowMs).1) nowIso)],
             nextDocId := st.nextDocId + 1 })) := by
  refine ⟨?_, ?_, ?_⟩
  · intro hshort
    simp [createLead, hshort]
  · intro docId doc hlong hfind
    have hne := not_isEmpty_of_ten_le hlong
    simp [createLead, hne, Nat.not_lt.mpr hlong, hfind]
  · intro hlong hfind haddOk
    have hne := not_isEmpty_of_ten_le hlong
    obtain ⟨hl, hn⟩ := getNextCgId_leads st orc.txOk nowIso nowMs
    simp [createLead, hne, Nat.not_lt.mpr hlong, hfind, haddOk, hl, hn]

/-- Witness for C4: all three branches at concrete inputs — a short phone,
a duplicate create against `c1State`, and a fresh create into the empty
store. -/
theorem c4_create_lead_witness :
    (createLead c1State { phone := some "98765" } FsOracle.allOk "t1" 7 =
      (none, c1State)) ∧
    (createLead c1State c1Data FsOracle.allOk "t1" 7 =
      (some ⟨0, "CG00001", some false, none⟩, c1State)) ∧
    (createLead ⟨[], 0, none, ""⟩ c1Data FsOracle.allOk "t1" 7 =
      (some ⟨0, (getNextCgId ⟨[], 0, none, ""⟩ true "t1" 7).1, some true, none⟩,
       { (getNextCgId ⟨[], 0, none, ""⟩ true "t1" 7).2 with
           leads := [] ++ [(0, newLeadDoc c1Data
             ((getNextCgId ⟨[], 0, none, ""⟩ true "t1" 7).1) "t1")],
           nextDocId := 0 + 1 })) :=
  ⟨(c4_create_lead c1State { phone := some "98765" } FsOracle.allOk "t1" 7).1
      (by decide),
   (c4_create_lead c1State c1Data FsOracle.allOk "t1" 7).2.1 0
      (c1State.leads.get ⟨0, by decide⟩).2 (by decide) (by decide),
   (c4_create_lead ⟨[], 0, none, ""⟩ c1Data FsOracle.allOk "t1" 7).2.2
      (by decide) (by decide) rfl⟩

/-! ## Store lemmas shared by C5 and C6 -/

/-- Rewriting `setLead` under a same-key search: the first hit keeps its
position and carries the new document. -/
theorem find?_setLead (dId : Nat) (nd : LeadDoc) :
    ∀ l : List (Nat × LeadDoc),
      (l.map (fun p => if p.1 == dId then (p.1, nd) else p)).find?
          (fun p => p.1 == dId) =
        (l.find? (fun p => p.1 == dId)).map (fun p => (p.1, nd)) := by
  intro l
  induction l with
  | nil => rfl
  | cons p rest ih =>
    cases hb : (p.1 == dId) with
    | true =>
      rw [List.map_cons, if_pos hb, List.find?_cons, List.find?_cons]
      simp [hb]
    | false =>
      rw [List.map_cons, if_neg (by simp [hb]), List.find?_cons, List.find?_cons]
      simp only [hb]
      exact ih

/-- Rewriting `setLead` under a different-key search: nothing changes. -/
theorem find?_setLead_ne (d1 d2 : Nat) (nd : LeadDoc) (hne : d1 ≠ d2) :
    ∀ l : List (Nat × LeadDoc),
      (l.map (fun p => if p.1 == d2 then (p.1, nd) else p)).find?
          (fun p => p.1 == d1) =
        l.find? (fun p => p.1 == d1) := by
  intro l
  induction l with
  | nil => rfl
  | cons p rest ih =>
    by_cases hp2 : p.1 = d2
    · have hp1 : (p.1 == d1) = false := by simp; omega
      rw [List.map_cons, if_pos (by simp [hp2]), List.find?_cons, List.find?_cons]
      have hd : (d2 == d1) = false := by simp; omega
      simp only [hp2, hd, hp1]
      exact ih
    · rw [List.map_cons, if_neg (by simp [hp2]), List.find?_cons, List.find?_cons]
      cases hb : (p.1 == d1) with
      | true => simp [hb]
      | false =>
        simp only [hb]
        exact ih

/-- With unique document ids, a member pair is what the id search finds. -/
theorem find?_of_mem_nodup :
    ∀ l : List (Nat × LeadDoc), (l.map Prod.fst).Nodup →
      ∀ dId doc, (dId, doc) ∈ l → l.find? (fun p => p.1 == dId) = some (dId, doc) := by
  intro l
  induction l with
  | nil => intro _ dId doc hmem; simp at hmem
  | cons p rest ih =>
    intro hnd dId doc hmem
    have hnd' := hnd
    simp only [List.map_cons, List.nodup_cons] at hnd'
    by_cases hp : p.1 = dId
    · rcases List.mem_cons.mp hmem with heq | hrest
      · subst heq
        rw [List.find?_cons]
        simp
      · exact absurd (by simpa [hp] using List.mem_map_of_mem Prod.fst hrest)
          hnd'.1
    · rcases List.mem_cons.mp hmem with heq | hrest
      · exact absurd (congrArg Prod.fst heq.symm) hp
      · rw [List.find?_cons]
        simp only [show (p.1 == dId) = false by simp [hp]]
        exact ih hnd'.2 dId doc hrest

/-- `setLead` keeps the id column unchanged. -/
theorem setLead_keys (st : FsState) (dId : Nat) (nd : LeadDoc) :
    (setLead st dId nd).leads.map Prod.fst = st.leads.map Prod.fst := by
  unfold setLead
  simp only [List.map_map]
  apply List.map_congr_left
  intro p _
  by_cases hp : p.1 = dId <;> simp [hp]

/-- Reading back the document just written. -/
theorem lookupLead_setLead_self (st : FsState) (dId : Nat) (nd : LeadDoc)
    (hex : (st.leads.find? (fun p => p.1 == dId)).isSome) :
    lookupLead (setLead st dId nd) dId = some nd := by
  unfold lookupLead setLead
  rw [find?_setLead]
  obtain ⟨p, hp⟩ := Option.isSome_iff_exists.mp hex
  simp [hp]

/-- Reading any other document after a write. -/
theorem lookupLead_setLead_other (st : FsState) (d1 d2 : Nat) (nd : LeadDoc)
    (hne : d1 ≠ d2) :
    lookupLead (setLead st d2 nd) d1 = lookupLead st d1 := by
  unfold lookupLead setLead
  rw [find?_setLead_ne d1 d2 nd hne]

/-- A non-empty string is not `isEmpty`. -/
theorem isEmpty_false_of_ne {s : String} (h : s ≠ "") : s.isEmpty = false := by
  cases he : s.isEmpty
  · rfl
  · exact absurd ((String.isEmpty_iff s).mp he) h

/-! ## C5 — the upsert merges, concatenates and appends, never duplicates -/

/-- C5. Against an existing lead, `createOrUpdateLead` updates in place: the
id column is untouched (no new document); an empty incoming value never
overwrites a populated field; a non-empty incoming `message`/`remark` lands
as `"<old> | <new>"` when the stored value is non-empty; exactly one new
history entry is appended, whose action is `contact_updated` when the caller
supplied no explicit entry. When no lead with the phone exists, the call is
exactly `createLead`. -/
theorem c5_upsert_merge (st : FsState) (d : LeadData) (h : Option HistoryInput)
    (nowIso : String) (nowMs : Nat) (hkeys : KeysNodup st) :
    ((findLeadByPhone st (some (phoneOf d)) true).1 = none →
      createOrUpdateLead st d h FsOracle.allOk nowIso nowMs =
        createLead st d FsOracle.allOk nowIso nowMs) ∧
    (∀ docId doc,
      (findLeadByPhone st (some (phoneOf d)) true).1 = some (docId, doc) →
      mkHistEntry (h.getD (contactUpdatedEntry d)) nowIso ∉ doc.history →
      ∃ doc',
        createOrUpdateLead st d h FsOracle.allOk nowIso nowMs =
          (some ⟨docId, doc.cgId, none, some true⟩, setLead st docId doc') ∧
        lookupLead (createOrUpdateLead st d h FsOracle.allOk nowIso nowMs).2 docId =
          some doc' ∧
        (createOrUpdateLead st d h FsOracle.allOk nowIso nowMs).2.leads.map Prod.fst =
          st.leads.map Prod.fst ∧
        (jsTruthy d.name = false → doc'.name = doc.name) ∧
        (jsTruthy d.location = false → doc'.location = doc.location) ∧
        (jsTruthy d.email = false → doc'.email = doc.email) ∧
        (jsTruthy d.message = false → doc'.message = doc.message) ∧
        (jsTruthy d.remark = false → doc'.remark = doc.remark) ∧
        (∀ m, d.message = some m → m ≠ "" → doc.message ≠ "" →
          doc'.message = doc.message ++ " | " ++ m) ∧
        (∀ r, d.remark = some r → r ≠ "" → doc.remark ≠ "" →
          doc'.remark = doc.remark ++ " | " ++ r) ∧
        doc'.history =
          doc.history ++ [mkHistEntry (h.getD (contactUpdatedEntry d)) nowIso] ∧
        (h = none →
          (mkHistEntry (h.getD (contactUpdatedEntry d)) nowIso).action =
            "contact_updated")) := by
  constructor
  · intro hnone
    simp [createOrUpdateLead, FsOracle.allOk] at hnone ⊢
    simp [hnone]
  · intro docId doc hfind hfresh
    have hmem : (docId, doc) ∈ st.leads := by
      have : st.leads.find? (fun p => p.2.phoneNormalized ==
          normalizePhone (some (phoneOf d))) = some (docId, doc) := by
        by_cases hsh : (normalizePhone (some (phoneOf d))).isEmpty ||
            (normalizePhone (some (phoneOf d))).length < 10
        · simp [findLeadByPhone, hsh] at hfind
        · simpa [findLeadByPhone, hsh] using hfind
      exact List.mem_of_find?_eq_some this
    have hkey : st.leads.find? (fun p => p.1 == docId) = some (docId, doc) :=
      find?_of_mem_nodup st.leads hkeys docId doc hmem
    refine ⟨applyUpdates doc (mergeUpdates doc d)
      (some (h.getD (contactUpdatedEntry d))) nowIso, ?_, ?_, ?_, ?_, ?_, ?_,
      ?_, ?_, ?_, ?_, ?_, ?_⟩
    · simp [createOrUpdateLead, updateLead, FsOracle.allOk, hfind]
    · rw [show (createOrUpdateLead st d h FsOracle.allOk nowIso nowMs).2 =
          setLead st docId (applyUpdates doc (mergeUpdates doc d)
            (some (h.getD (contactUpdatedEntry d))) nowIso) by
        simp [createOrUpdateLead, updateLead, FsOracle.allOk, hfind]]
      exact lookupLead_setLead_self st docId _ (by simp [hkey])
    · rw [show (createOrUpdateLead st d h FsOracle.allOk nowIso nowMs).2 =
          setLead st docId (applyUpdates doc (mergeUpdates doc d)
            (some (h.getD (contactUpdatedEntry d))) nowIso) by
        simp [createOrUpdateLead, updateLead, FsOracle.allOk, hfind]]
      exact setLead_keys st docId _
    · intro hf
      simp [applyUpdates, mergeUpdates, hf]
    · intro hf
      simp [applyUpdates, mergeUpdates, hf]
    · intro hf
      simp [applyUpdates, mergeUpdates, hf]
    · intro hf
      simp [applyUpdates, mergeUpdates, hf]
    · intro hf
      simp [applyUpdates, mergeUpdates, hf]
    · intro m hm hmne hdne
      simp [applyUpdates, mergeUpdates, hm, jsTruthy, isEmpty_false_of_ne hmne,
        isEmpty_false_of_ne hdne]
    · intro r hr hrne hdne
      simp [applyUpdates, mergeUpdates, hr, jsTruthy, isEmpty_false_of_ne hrne,
        isEmpty_false_of_ne hdne]
    · simp [applyUpdates, arrayUnion, hfresh]
    · intro hn
      subst hn
      simp [mkHistEntry, contactUpdatedEntry]

/-- Witness for C5 at the concrete store `c1State` and event `c1Data`: the
stored message becomes `"hello | new message"`, the update lands in place. -/
theorem c5_upsert_merge_witness :
    ∃ doc',
      (createOrUpdateLead c1State c1Data none FsOracle.allOk "t1" 0).2 =
        setLead c1State 0 doc' ∧
      doc'.message = "hello" ++ " | " ++ "new message" := by
  obtain ⟨doc', heq, -, -, -, -, -, -, -, hmsg, -, -, -⟩ :=
    (c5_upsert_merge c1State c1Data none "t1" 0
        (by show (c1State.leads.map Prod.fst).Nodup; decide)).2 0
      ({ newLeadDoc { phone := some "+91 98765 43210" } "CG00001" "t0" with
          message := "hello" }) (by decide) (by decide)
  exact ⟨doc', congrArg Prod.snd heq,
    hmsg "new message" rfl (by decide) (by decide)⟩

/-! ## C6 — the history audit trail is append-only -/

/-- One history-carrying mutation: `updateLead` with a history entry, or
`addHistory`. -/
inductive HistOp where
  | upd (phone : Option String) (u : LeadUpdates) (h : HistoryInput)
      (nowIso : String)
  | addH (phone : Option String) (action : String) (by_ : Option String)
      (details : List (String × String)) (nowIso : String)
deriving DecidableEq, Repr

/-- Run one mutation against the store. -/
def applyOp (orc : FsOracle) (st : FsState) (op : HistOp) : FsState :=
  match op with
  | .upd phone u h nowIso => (updateLead st phone u (some h) orc nowIso).2
  | .addH phone action by_ details nowIso =>
    (addHistory st phone action by_ details orc nowIso).2

/-- The phone an operation addresses. -/
def opPhone : HistOp → Option String
  | .upd phone _ _ _ => phone
  | .addH phone _ _ _ _ => phone

/-- The history entry an operation carries. -/
def opEntry : HistOp → HistoryEntry
  | .upd _ _ h nowIso => mkHistEntry h nowIso
  | .addH _ action by_ details nowIso => ⟨action, jsOrD by_ "system", nowIso, details⟩

/-- The operation's lookup lands on document `docId`, its entry is not yet
in that document's history (fresh timestamp), and the backend write
commits. -/
def OpFreshHit (orc : FsOracle) (st : FsState) (op : HistOp) (docId : Nat) : Prop :=
  (∃ doc, (findLeadByPhone st (opPhone op) orc.findOk).1 = some (docId, doc) ∧
    opEntry op ∉ doc.history) ∧ orc.updOk = true

/-- Every operation of the sequence, run in order, freshly hits `docId`. -/
def SeqFreshHit (orc : FsOracle) (docId : Nat) : FsState → List HistOp → Prop
  | _, [] => True
  | st, op :: rest =>
    OpFreshHit orc st op docId ∧ SeqFreshHit orc docId (applyOp orc st op) rest

/-- Unfolding `lookupLead` to the underlying search. -/
theorem lookupLead_eq_find? (st : FsState) (docId : Nat) (doc : LeadDoc) :
    lookupLead st docId = some doc ↔
      st.leads.find? (fun p => p.1 == docId) = some (docId, doc) := by
  unfold lookupLead
  constructor
  · intro h
    obtain ⟨q, hq, hq2⟩ := Option.map_eq_some'.mp h
    have hpred := List.find?_some hq
    have hq1 : q.1 = docId := by simpa using hpred
    rw [hq, show q = (docId, doc) from Prod.ext hq1 hq2]
  · intro h
    simp [h]

/-- `arrayUnion` only ever extends the array. -/
theorem arrayUnion_extends (hist : List HistoryEntry) (e : HistoryEntry) :
    ∃ t, arrayUnion hist e = hist ++ t := by
  by_cases he : e ∈ hist
  · exact ⟨[], by simp [arrayUnion, he]⟩
  · exact ⟨[e], by simp [arrayUnion, he]⟩

/-- `applyOp` never changes the id column. -/
theorem applyOp_keys (orc : FsOracle) (st : FsState) (op : HistOp) :
    (applyOp orc st op).leads.map Prod.fst = st.leads.map Prod.fst := by
  cases op with
  | upd phone u h nowIso =>
    unfold applyOp updateLead
    cases hf : (findLeadByPhone st phone orc.findOk).1 with
    | none => simp [hf]
    | some q =>
      cases horc : orc.updOk <;> simp [hf, horc, setLead_keys]
  | addH phone action by_ details nowIso =>
    unfold applyOp addHistory
    cases hf : (findLeadByPhone st phone orc.findOk).1 with
    | none => simp [hf]
    | some q =>
      cases horc : orc.updOk <;> simp [hf, horc, setLead_keys]

/-- Applying the scalar payload never touches the history field except
through `arrayUnion`: one step extends every document's history. -/
theorem applyOp_extends (orc : FsOracle) (st : FsState) (op : HistOp)
    (docId : Nat) (doc : LeadDoc) (hkeys : KeysNodup st)
    (hdoc : lookupLead st docId = some doc) :
    ∃ doc' t, lookupLead (applyOp orc st op) docId = some doc' ∧
      doc'.history = doc.history ++ t := by
  have hself : ∀ nd : LeadDoc, lookupLead (setLead st docId nd) docId = some nd := by
    intro nd
    exact lookupLead_setLead_self st docId nd
      (by simp [(lookupLead_eq_find? st docId doc).mp hdoc])
  have hmain : ∀ phone (d2 : Nat) (doc2 nd : LeadDoc),
      (findLeadByPhone st phone orc.findOk).1 = some (d2, doc2) →
      (∃ t, nd.history = doc2.history ++ t) →
      ∃ doc' t, lookupLead (setLead st d2 nd) docId = some doc' ∧
        doc'.history = doc.history ++ t := by
    intro phone d2 doc2 nd hf hnd
    by_cases hd : docId = d2
    · subst hd
    -- by key uniqueness the phone search hit our tracked document
      have hmem : (docId, doc2) ∈ st.leads := by
        have : st.leads.find? (fun p => p.2.phoneNormalized ==
            normalizePhone phone) = some (docId, doc2) := by
          by_cases hsh : (normalizePhone phone).isEmpty ||
              (normalizePhone phone).length < 10
          · simp [findLeadByPhone, hsh] at hf
          · cases horc2 : orc.findOk
            · simp [findLeadByPhone, hsh, horc2] at hf
            · simpa [findLeadByPhone, hsh, horc2] using hf
        exact List.mem_of_find?_eq_some this
      have heq : doc2 = doc := by
        have h1 := find?_of_mem_nodup st.leads hkeys docId doc2 hmem
        have h2 := (lookupLead_eq_find? st docId doc).mp hdoc
        have := h1.symm.trans h2
        simpa using this
      subst heq
      obtain ⟨t, ht⟩ := hnd
      exact ⟨nd, t, hself nd, ht⟩
    · exact ⟨doc, [], by
        rw [lookupLead_setLead_other st docId d2 nd hd]
        exact hdoc, by simp⟩
  cases op with
  | upd phone u h nowIso =>
    unfold applyOp updateLead
    cases hf : (findLeadByPhone st phone orc.findOk).1 with
    | none => exact ⟨doc, [], by simpa [hf] using hdoc, by simp⟩
    | some q =>
      cases horc : orc.updOk with
      | false => exact ⟨doc, [], by simpa [hf, horc] using hdoc, by simp⟩
      | true =>
        simp only [hf, horc]
        refine hmain phone q.1 q.2 _ (by simpa using hf) ?_
        simp only [applyUpdates]
        obtain ⟨t, ht⟩ := arrayUnion_extends q.2.history (mkHistEntry h nowIso)
        exact ⟨t, by simp [ht]⟩
  | addH phone action by_ details nowIso =>
    unfold applyOp addHistory
    cases hf : (findLeadByPhone st phone orc.findOk).1 with
    | none => exact ⟨doc, [], by simpa [hf] using hdoc, by simp⟩
    | some q =>
      cases horc : orc.updOk with
      | false => exact ⟨doc, [], by simpa [hf, horc] using hdoc, by simp⟩
      | true =>
        simp only [hf, horc]
        refine hmain phone q.1 q.2 _ (by simpa using hf) ?_
        obtain ⟨t, ht⟩ := arrayUnion_extends q.2.history
          ⟨action, jsOrD by_ "system", nowIso, details⟩
        exact ⟨t, by simp [ht]⟩

/-- A fresh targeted step appends exactly the operation's entry. -/
theorem applyOp_fresh (orc : FsOracle) (st : FsState) (op : HistOp)
    (docId : Nat) (doc : LeadDoc) (hkeys : KeysNodup st)
    (hdoc : lookupLead st docId = some doc)
    (hhit : OpFreshHit orc st op docId) :
    ∃ doc', lookupLead (applyOp orc st op) docId = some doc' ∧
      doc'.history = doc.history ++ [opEntry op] := by
  obtain ⟨⟨doc2, hf, hfresh⟩, hupd⟩ := hhit
  have hmem : (docId, doc2) ∈ st.leads := by
    have : st.leads.find? (fun p => p.2.phoneNormalized ==
        normalizePhone (opPhone op)) = some (docId, doc2) := by
      by_cases hsh : (normalizePhone (opPhone op)).isEmpty ||
          (normalizePhone (opPhone op)).length < 10
      · simp [findLeadByPhone, hsh] at hf
      · cases horc2 : orc.findOk
        · simp [findLeadByPhone, hsh, horc2] at hf
        · simpa [findLeadByPhone, hsh, horc2] using hf
    exact List.mem_of_find?_eq_some this
  have heq : doc2 = doc := by
    have h1 := find?_of_mem_nodup st.leads hkeys docId doc2 hmem
    have h2 := (lookupLead_eq_find? st docId doc).mp hdoc
    simpa using h1.symm.trans h2
  subst heq
  have hself : ∀ nd : LeadDoc, lookupLead (setLead st docId nd) docId = some nd := by
    intro nd
    exact lookupLead_setLead_self st docId nd
      (by simp [(lookupLead_eq_find? st docId doc2).mp hdoc])
  cases op with
  | upd phone u h nowIso =>
    simp only [opPhone] at hf
    simp only [opEntry] at hfresh
    unfold applyOp updateLead
    simp only [hf, hupd]
    refine ⟨_, hself _, ?_⟩
    simp only [applyUpdates, opEntry]
    simp [arrayUnion, hfresh]
  | addH phone action by_ details nowIso =>
    simp only [opPhone] at hf
    simp only [opEntry] at hfresh
    unfold applyOp addHistory
    simp only [hf, hupd]
    refine ⟨_, hself _, ?_⟩
    simp only [opEntry]
    simp [arrayUnion, hfresh]

/-- C6. The history field is append-only. Over any sequence of
history-carrying mutations (`updateLead`/`addHistory`, any backend
outcomes), a tracked document's history is only ever extended — every
previously appended entry survives unchanged in place. When the N
operations each freshly hit the tracked lead and commit, the final history
is the initial one plus exactly N entries. -/
theorem c6_history_append_only (orc : FsOracle) (st : FsState) (docId : Nat)
    (doc : LeadDoc) (ops : List HistOp) (hkeys : KeysNodup st)
    (hdoc : lookupLead st docId = some doc) :
    (∃ doc' t, lookupLead (ops.foldl (applyOp orc) st) docId = some doc' ∧
      doc'.history = doc.history ++ t) ∧
    (SeqFreshHit orc docId st ops →
      ∃ doc' t, lookupLead (ops.foldl (applyOp orc) st) docId = some doc' ∧
        doc'.history = doc.history ++ t ∧ t.length = ops.length) := by
  induction ops generalizing st doc with
  | nil => exact ⟨⟨doc, [], by simpa using hdoc, by simp⟩,
      fun _ => ⟨doc, [], by simpa using hdoc, by simp, rfl⟩⟩
  | cons op rest ih =>
    have hkeys' : KeysNodup (applyOp orc st op) := by
      unfold KeysNodup
      rw [applyOp_keys]
      exact hkeys
    constructor
    · obtain ⟨doc1, t1, hl1, hh1⟩ := applyOp_extends orc st op docId doc hkeys hdoc
      obtain ⟨⟨doc', t', hl', hh'⟩, -⟩ := ih (applyOp orc st op) doc1 hkeys' hl1
      exact ⟨doc', t1 ++ t', by simpa using hl', by simp [hh', hh1]⟩
    · rintro ⟨hhit, hrest⟩
      obtain ⟨doc1, hl1, hh1⟩ := applyOp_fresh orc st op docId doc hkeys hdoc hhit
      obtain ⟨-, hfr⟩ := ih (applyOp orc st op) doc1 hkeys' hl1
      obtain ⟨doc', t', hl', hh', hlen⟩ := hfr hrest
      exact ⟨doc', [opEntry op] ++ t', by simpa using hl',
        by simp [hh', hh1], by simp [hlen]⟩

/-- Witness for C6: one fresh `addHistory` against the concrete store grows
the tracked lead's history by exactly one entry. -/
theorem c6_history_append_only_witness :
    ∃ doc' t,
      lookupLead
        ([HistOp.addH (some "919876543210") "call_logged" none [] "t9"].foldl
          (applyOp FsOracle.allOk) c1State) 0 = some doc' ∧
      doc'.history =
        ({ newLeadDoc { phone := some "+91 98765 43210" } "CG00001" "t0" with
            message := "hello" } : LeadDoc).history ++ t ∧
      t.length = 1 := by
  have h := (c6_history_append_only FsOracle.allOk c1State 0
    ({ newLeadDoc { phone := some "+91 98765 43210" } "CG00001" "t0" with
        message := "hello" })
    [HistOp.addH (some "919876543210") "call_logged" none [] "t9"]
    (by show (c1State.leads.map Prod.fst).Nodup; decide) (by rfl)).2
  exact h ⟨⟨⟨{ newLeadDoc { phone := some "+91 98765 43210" } "CG00001" "t0" with
      message := "hello" }, by decide, by decide⟩, rfl⟩, trivial⟩

/-! ## C2 — retry backoff is non-decreasing, dead-letter exactly after the
fifth failed attempt -/

/-- The scheduler run of C2: one permanently-failing write enqueued once at
`t₀` into the empty queue, then polled at the given tick times. -/
def c2Run (opId msg : String) (meta : Metadata) (t₀ : Nat) (ts : List Nat) :
    SchedState :=
  runSched (alwaysFail msg) ⟨enqueue [] opId meta t₀, [], []⟩ ts

/-- The attempt log is well-formed: attempts are numbered 1, 2, …, all carry
the operation id, each fires no earlier than scheduled and no earlier than
the enqueue time, and the scheduled times never decrease. -/
def EvLogOk (opId : String) (t₀ : Nat) (evs : List AttemptEv) : Prop :=
  evs.map (fun e => e.attemptNo) = List.range' 1 evs.length ∧
  (∀ ev ∈ evs, ev.operationId = opId ∧ t₀ ≤ ev.scheduledAt ∧
    ev.scheduledAt ≤ ev.firedAt) ∧
  List.Chain' (fun a b => a.scheduledAt ≤ b.scheduledAt) evs

/-- The inductive invariant of the single-item always-failing run: either
the item is still queued with `attempts` matching the log and at most 4, or
it has been dead-lettered exactly at the 5th attempt. -/
def SchedInv (opId msg : String) (meta : Metadata) (t₀ : Nat)
    (st : SchedState) : Prop :=
  EvLogOk opId t₀ st.evs ∧
  ((∃ it, st.queue = [it] ∧ it.operationId = opId ∧ it.metadata = meta ∧
      it.enqueuedAt = t₀ ∧ it.attempts = st.evs.length ∧ st.evs.length ≤ 4 ∧
      t₀ ≤ it.nextRetryAt ∧ (∀ ev ∈ st.evs, ev.scheduledAt ≤ it.nextRetryAt) ∧
      st.dls = []) ∨
    (st.queue = [] ∧ st.evs.length = 5 ∧
      ∃ dAt, st.dls =
        [⟨"DEAD_LETTER", "CRITICAL", opId, 5, msg, meta, t₀, dAt⟩]))

/-- Last element of a list is a member. -/
theorem mem_of_getLast?_eq {α : Type} {l : List α} {a : α}
    (h : l.getLast? = some a) : a ∈ l := by
  obtain ⟨hh, rfl⟩ := List.mem_getLast?_eq_getLast (by simpa using h)
  exact List.getLast_mem hh

/-- A one-item queue reduces to the single item's handling. -/
theorem processQueue_singleton (now : Nat) (wf : String → Except String Unit)
    (it : QItem) :
    processQueue now wf [it] =
      ((processItem now wf it).1.toList, (processItem now wf it).2.1.toList,
       (processItem now wf it).2.2.toList) := by
  rcases h : processItem now wf it with ⟨keep, ev, dl⟩
  simp [processQueue, h]

/-- Appending a fresh attempt event keeps the log well-formed, given the new
event extends the schedule. -/
theorem EvLogOk.append (opId : String) (t₀ : Nat) (evs : List AttemptEv)
    (ev : AttemptEv) (hok : EvLogOk opId t₀ evs)
    (hno : ev.attemptNo = evs.length + 1) (hid : ev.operationId = opId)
    (ht0 : t₀ ≤ ev.scheduledAt) (hfired : ev.scheduledAt ≤ ev.firedAt)
    (hlast : ∀ e ∈ evs, e.scheduledAt ≤ ev.scheduledAt) :
    EvLogOk opId t₀ (evs ++ [ev]) := by
  obtain ⟨hmap, hmem, hchain⟩ := hok
  refine ⟨?_, ?_, ?_⟩
  · rw [List.map_append, hmap]
    simp [hno, List.range'_concat, Nat.add_comm]
  · intro e he
    rcases List.mem_append.mp he with h | h
    · exact hmem e h
    · simp at h
      subst h
      exact ⟨hid, ht0, hfired⟩
  · rw [List.chain'_append]
    refine ⟨hchain, by simp, ?_⟩
    intro x hx y hy
    simp at hy
    subst hy
    exact hlast x (mem_of_getLast?_eq hx)

/-- One poll tick preserves the invariant. -/
theorem tick_preserves_inv (opId msg : String) (meta : Metadata) (t₀ : Nat)
    (st : SchedState) (now : Nat) (hinv : SchedInv opId msg meta t₀ st) :
    SchedInv opId msg meta t₀ (tick (alwaysFail msg) st now) := by
  obtain ⟨hev, hcase⟩ := hinv
  rcases hcase with
    ⟨it, hq, hopid, hmeta, henq, hatt, hlen, hnra, hsched, hdls⟩ |
    ⟨hq, hlen, dAt, hdls⟩
  · -- the item is still queued
    have ht : tick (alwaysFail msg) st now =
        ⟨(processItem now (alwaysFail msg) it).1.toList,
         st.evs ++ (processItem now (alwaysFail msg) it).2.1.toList,
         st.dls ++ (processItem now (alwaysFail msg) it).2.2.toList⟩ := by
      simp [tick, hq, processQueue_singleton]
    by_cases hskip : it.nextRetryAt > now
    · -- not yet due: nothing happens
      rw [ht]
      simp only [processItem, if_pos hskip]
      exact ⟨by simpa using hev,
        Or.inl ⟨it, by simp, hopid, hmeta, henq, by simpa using hatt,
          by simpa using hlen, hnra, by simpa using hsched, by simpa using hdls⟩⟩
    · -- due: the write function fails
      have hnow : it.nextRetryAt ≤ now := by omega
      by_cases hmax : st.evs.length + 1 ≥ MAX_RETRIES
      · -- fifth failure: dead-letter
        have hdead : processItem now (alwaysFail msg) it =
            (none, some ⟨it.operationId, it.attempts + 1, it.nextRetryAt, now⟩,
             some ⟨"DEAD_LETTER", "CRITICAL", it.operationId, it.attempts + 1,
               msg, it.metadata, it.enqueuedAt, now⟩) := by
          simp [processItem, hskip, alwaysFail, hatt, hmax]
        rw [ht, hdead]
        have hlen5 : st.evs.length = 4 := by
          have : MAX_RETRIES = 5 := rfl
          omega
        refine ⟨?_, Or.inr ⟨by simp, by simp [hlen5], now, ?_⟩⟩
        · refine EvLogOk.append opId t₀ st.evs _ (by simpa using hev)
            (by simp [hatt]) (by simp [hopid]) (by simpa using hnra)
            (by simpa using hnow) (by simpa using hsched)
        · simp [hopid, hmeta, henq, hatt, hlen5, hdls]
      · -- rescheduled with the next backoff
        have halive : processItem now (alwaysFail msg) it =
            (some { it with
               attempts := it.attempts + 1,
               nextRetryAt := now + backoffFor (it.attempts + 1) },
             some ⟨it.operationId, it.attempts + 1, it.nextRetryAt, now⟩,
             none) := by
          simp [processItem, hskip, alwaysFail, hatt, hmax]
        simp only [MAX_RETRIES] at hmax
        rw [ht, halive]
        refine ⟨?_, Or.inl ⟨{ it with
            attempts := it.attempts + 1,
            nextRetryAt := now + backoffFor (it.attempts + 1) },
          by simp, by simpa using hopid, by simpa using hmeta,
          by simpa using henq, by simp [hatt], by simp; omega,
          by simp; omega, ?_, by simpa using hdls⟩⟩
        · refine EvLogOk.append opId t₀ st.evs _ (by simpa using hev)
            (by simp [hatt]) (by simp [hopid]) (by simpa using hnra)
            (by simpa using hnow) (by simpa using hsched)
        · intro ev hevmem
          simp only [Option.toList_some, List.mem_append, List.mem_singleton]
            at hevmem
          rcases hevmem with h | h
          · have := hsched ev h
            simp
            omega
          · subst h
            simp
            omega
  · -- already dead: an empty queue is a fixed point
    have ht : tick (alwaysFail msg) st now = ⟨[], st.evs, st.dls⟩ := by
      simp [tick, hq, processQueue]
    rw [ht]
    exact ⟨by simpa using hev, Or.inr ⟨rfl, by simpa using hlen,
      dAt, by simpa using hdls⟩⟩

/-- The invariant is preserved along any tick sequence. -/
theorem runSched_preserves (opId msg : String) (meta : Metadata) (t₀ : Nat) :
    ∀ (ts : List Nat) (st : SchedState), SchedInv opId msg meta t₀ st →
      SchedInv opId msg meta t₀ (runSched (alwaysFail msg) st ts) := by
  intro ts
  induction ts with
  | nil => exact fun st h => h
  | cons t ts ih =>
    intro st h
    rw [runSched, List.foldl_cons]
    exact ih (tick (alwaysFail msg) st t)
      (tick_preserves_inv opId msg meta t₀ st t h)

/-- The invariant holds after any run from the freshly enqueued state. -/
theorem runSched_inv (opId msg : String) (meta : Metadata) (t₀ : Nat) :
    ∀ ts : List Nat, SchedInv opId msg meta t₀ (c2Run opId msg meta t₀ ts) := by
  have hinit : SchedInv opId msg meta t₀ ⟨enqueue [] opId meta t₀, [], []⟩ := by
    refine ⟨⟨by simp, by simp, by simp⟩, Or.inl ⟨⟨opId, meta, 0, t₀, t₀⟩,
      by simp [enqueue], rfl, rfl, rfl, by simp, by simp, by simp, by simp,
      rfl⟩⟩
  intro ts
  exact runSched_preserves opId msg meta t₀ ts _ hinit

/-- C2. For a permanently-failing write enqueued exactly once: across any
sequence of poll ticks, the per-attempt deltas `scheduledAt − enqueuedAt`
are non-decreasing; attempts are numbered 1, 2, … and never exceed 5; the
item is removed from the queue exactly when the 5th attempt has fired (never
before, and no 6th attempt ever happens); and removal coincides with exactly
one structured CRITICAL dead-letter record carrying the operation id, the
attempt count 5, the last error, the metadata, the enqueue timestamp and a
death timestamp. -/
theorem c2_retry_schedule (opId msg : String) (meta : Metadata) (t₀ : Nat)
    (ts : List Nat) :
    List.Chain' (· ≤ ·)
      ((c2Run opId msg meta t₀ ts).evs.map (fun e => e.scheduledAt - t₀)) ∧
    (c2Run opId msg meta t₀ ts).evs.map (fun e => e.attemptNo) =
      List.range' 1 (c2Run opId msg meta t₀ ts).evs.length ∧
    (c2Run opId msg meta t₀ ts).evs.length ≤ 5 ∧
    ((c2Run opId msg meta t₀ ts).queue = [] ↔
      (c2Run opId msg meta t₀ ts).evs.length = 5) ∧
    ((c2Run opId msg meta t₀ ts).queue = [] →
      ∃ dAt, (c2Run opId msg meta t₀ ts).dls =
        [⟨"DEAD_LETTER", "CRITICAL", opId, 5, msg, meta, t₀, dAt⟩]) ∧
    ((c2Run opId msg meta t₀ ts).queue ≠ [] →
      (c2Run opId msg meta t₀ ts).dls = []) := by
  obtain ⟨⟨hmap, hmem, hchain⟩, hcase⟩ := runSched_inv opId msg meta t₀ ts
  refine ⟨?_, hmap, ?_, ?_, ?_, ?_⟩
  · rw [List.chain'_map]
    exact hchain.imp (fun a b h => Nat.sub_le_sub_right h t₀)
  · rcases hcase with ⟨it, _, _, _, _, _, hlen, _⟩ | ⟨_, hlen, _⟩ <;> omega
  · constructor
    · intro hq
      rcases hcase with ⟨it, hq', _⟩ | ⟨_, hlen, _⟩
      · rw [hq'] at hq
        simp at hq
      · exact hlen
    · intro hlen
      rcases hcase with ⟨it, _, _, _, _, _, hle, _⟩ | ⟨hq, _⟩
      · omega
      · exact hq
  · intro hq
    rcases hcase with ⟨it, hq', _⟩ | ⟨_, _, dAt, hdls⟩
    · rw [hq'] at hq
      simp at hq
    · exact ⟨dAt, hdls⟩
  · intro hq
    rcases hcase with ⟨it, _, _, _, _, _, _, _, _, hdls⟩ | ⟨hq', _⟩
    · exact hdls
    · exact absurd hq' hq

/-- Witness for C2: with ticks shortly after each backoff elapses, the item
dies exactly at the 5th attempt with the full structured record. -/
theorem c2_retry_schedule_witness :
    ∃ dAt,
      (c2Run "op" "boom" ⟨"9876543210", "handleNewContact"⟩ 0
        [0, 20000, 90000, 400000, 1400000]).dls =
      [⟨"DEAD_LETTER", "CRITICAL", "op", 5, "boom",
        ⟨"9876543210", "handleNewContact"⟩, 0, dAt⟩] :=
  (c2_retry_schedule "op" "boom" ⟨"9876543210", "handleNewContact"⟩ 0
    [0, 20000, 90000, 400000, 1400000]).2.2.2.2.1 (by decide)

/-- Witness for C7: the first ever successful generation on an absent
counter yields `CG00001` and a counter of 1. -/
theorem c7_cgid_generation_witness :
    getNextCgId ⟨[], 0, none, "t"⟩ true "t1" 99 =
      ("CG00001", ⟨[], 0, some 1, "t1"⟩) :=
  (c7_cgid_generation ⟨[], 0, none, "t"⟩ "t1" 99).2.1 rfl

end CgCrm
